import Mathlib

/-!
Verification of the transcriptor repository.

The repository ships a FastAPI service (`src/main.py`) around an
order-extraction parser for informal Spanish transcripts.  The service
helpers (`health`, `format_srt`, `format_vtt`, `format_timestamp`) are
embedded directly from `src/main.py`.  The parser itself is not part of
`src/`; its components (normalizer, lexicon, splitter, classifier,
aggregator) are modelled from the specification, as marked on each
definition.
-/

namespace Transcriptor

/-! ## Text normalizer -/

/-- Modelled from the spec: whitespace characters recognised by the
normalizer's whitespace collapapsing step. -/
def isSpc (c : Char) : Bool := c = ' ' || c = '\t' || c = '\n' || c = '\r'

/-- Modelled from the spec: lowercasing plus diacritic transliteration as a
single character table — accented characters map to their unaccented
lowercase ASCII equivalents, ASCII uppercase maps to lowercase. -/
def foldTable : List (Char × Char) :=
  [('á', 'a'), ('é', 'e'), ('í', 'i'), ('ó', 'o'), ('ú', 'u'), ('ü', 'u'), ('ñ', 'n'),
   ('Á', 'a'), ('É', 'e'), ('Í', 'i'), ('Ó', 'o'), ('Ú', 'u'), ('Ü', 'u'), ('Ñ', 'n'),
   ('A', 'a'), ('B', 'b'), ('C', 'c'), ('D', 'd'), ('E', 'e'), ('F', 'f'), ('G', 'g'),
   ('H', 'h'), ('I', 'i'), ('J', 'j'), ('K', 'k'), ('L', 'l'), ('M', 'm'), ('N', 'n'),
   ('O', 'o'), ('P', 'p'), ('Q', 'q'), ('R', 'r'), ('S', 's'), ('T', 't'), ('U', 'u'),
   ('V', 'v'), ('W', 'w'), ('X', 'x'), ('Y', 'y'), ('Z', 'z')]

/-- Modelled from the spec: per-character normalization (lowercase and fold
diacritics); characters outside the table are unchanged. -/
def normChar (c : Char) : Char := (foldTable.lookup c).getD c

/-- Modelled from the spec: word splitter accumulating the current word;
splits on whitespace, dropping empty fragments. -/
def wordsAux : List Char → List Char → List (List Char)
  | cur, [] => if cur = [] then [] else [cur]
  | cur, c :: rest =>
    if isSpc c then
      if cur = [] then wordsAux [] rest else cur :: wordsAux [] rest
    else
      wordsAux (cur ++ [c]) rest

/-- Modelled from the spec: split a character list into whitespace-free
nonempty words. -/
def words (l : List Char) : List (List Char) := wordsAux [] l

/-- Modelled from the spec: full normalization — trim, lowercase, fold
diacritics, collapse whitespace runs to single spaces. -/
def normalize (s : String) : String :=
  String.mk (List.intercalate [' '] (words (s.data.map normChar)))

/-! ## Lexicon -/

/-- Modelled from the spec: word-form numbers 1 through 12, including the
gendered and indefinite forms that all mean one. -/
def numberWords : List (String × Nat) :=
  [("un", 1), ("uno", 1), ("una", 1), ("unos", 1), ("unas", 1),
   ("otro", 1), ("otra", 1), ("otros", 1), ("otras", 1),
   ("dos", 2), ("tres", 3), ("cuatro", 4), ("cinco", 5), ("seis", 6),
   ("siete", 7), ("ocho", 8), ("nueve", 9), ("diez", 10), ("once", 11), ("doce", 12)]

/-- Modelled from the spec: stopwords, politeness words, pronouns and
add-intent verbs, all stripped before key extraction. -/
def fillerWords : List String :=
  ["el", "la", "los", "las", "lo", "de", "del", "al", "a", "en", "con",
   "para", "por", "favor", "gracias", "que", "quiero", "quisiera", "dame",
   "deme", "me", "te", "pon", "ponme", "agrega", "agregame", "anade",
   "tambien", "mas", "porfa", "si", "y", "o"]

/-- Modelled from the spec: leading words signalling REPLACE intent. -/
def replaceWords : List String := ["mejor"]

/-- Modelled from the spec: leading words signalling REMOVE intent. -/
def removeWords : List String :=
  ["quita", "quitar", "quite", "cancela", "cancelar", "elimina", "eliminar",
   "borra", "borrar"]

/-- Modelled from the spec: indefinite markers used for anaphoric reference. -/
def indefWords : List String := ["otro", "otra", "otros", "otras"]

/-- Modelled from the spec: a token made only of decimal digits. -/
def isDigitTok (t : String) : Bool :=
  !(t == "") && t.data.all (fun c => '0' ≤ c && c ≤ '9')

/-- Modelled from the spec: value of a digit-sequence token. -/
def digitVal (t : String) : Nat :=
  t.data.foldl (fun acc c => acc * 10 + (c.toNat - '0'.toNat)) 0

/-- Modelled from the spec: numeric value of a token, digit sequence or
number word, if any. -/
def tokNum (t : String) : Option Nat :=
  if isDigitTok t then some (digitVal t) else numberWords.lookup t

/-- Modelled from the spec: whether a token is an explicit quantity token. -/
def isNumTok (t : String) : Bool := (tokNum t).isSome

/-! ## Fragment splitter -/

/-- Modelled from the spec: split a character list at every comma (empty
fragments are filtered later). -/
def splitComma : List Char → List (List Char)
  | [] => [[]]
  | c :: rest =>
    if c = ',' then [] :: splitComma rest
    else
      match splitComma rest with
      | [] => [[c]]
      | h :: t => (c :: h) :: t

/-- Modelled from the spec: split a token list at every standalone
conjunction token. -/
def splitY : List String → List (List String)
  | [] => [[]]
  | t :: rest =>
    if t = "y" then [] :: splitY rest
    else
      match splitY rest with
      | [] => [[t]]
      | h :: ts => (t :: h) :: ts

/-- Modelled from the spec: clauses of an input — normalize, split on commas
and on the conjunction, drop empty fragments, order preserved. -/
def clausesOf (s : String) : List (List String) :=
  (((splitComma (normalize s).data).map
      (fun frag => splitY ((words frag).map String.mk))).flatten).filter
    (fun cl => !(cl == []))

/-! ## Phrase classifier and extractor -/

/-- Modelled from the spec: intent of a clause. -/
inductive Intent where
  | add
  | repl
  | remove
deriving DecidableEq

/-- Modelled from the spec: classified clause result — intent, product key,
quantity and whether an explicit quantity token was found. -/
structure ClauseRes where
  intent : Intent
  key : String
  qty : Nat
  explicit : Bool
deriving DecidableEq

/-- Modelled from the spec: singularization suffix heuristic on characters —
drop a trailing "es"; else drop a trailing "s" when the token is longer
than three characters. -/
def singChars (l : List Char) : List Char :=
  match l.reverse with
  | 's' :: 'e' :: rest => rest.reverse
  | 's' :: rest => if 3 ≤ rest.length then rest.reverse else l
  | _ => l

/-- Modelled from the spec: singularize a token. -/
def singularize (t : String) : String := String.mk (singChars t.data)

/-- Modelled from the spec: tokens stripped during product-phrase
extraction — fillers and quantity tokens. -/
def stripTok (t : String) : Bool := fillerWords.contains t || isNumTok t

/-- Modelled from the spec: join tokens with single spaces. -/
def joinToks (l : List String) : String :=
  String.mk (List.intercalate [' '] (l.map String.data))

/-- Modelled from the spec: product key candidate of a token list — strip
fillers and quantity tokens, singularize the rest, join with spaces. -/
def keyOf (toks : List String) : String :=
  joinToks (((toks.filter (fun t => !stripTok t)).map singularize).filter
    (fun t => !(t == "")))

/-- Modelled from the spec: intent of the leading word, and whether that
word is consumed as an intent signal. -/
def intentOf : List String → Intent × Bool
  | [] => (Intent.add, false)
  | t :: _ =>
    if replaceWords.contains t then (Intent.repl, true)
    else if removeWords.contains t then (Intent.remove, true)
    else (Intent.add, false)

/-- Modelled from the spec: first explicit quantity token — its value and
the tokens after it. -/
def findNum : List String → Option (Nat × List String)
  | [] => none
  | t :: rest =>
    match tokNum t with
    | some v => some (v, rest)
    | none => findNum rest

/-- Modelled from the spec: classify one clause given the last-mentioned
product — intent detection, quantity extraction, product-phrase
extraction, anaphora fallback, tail fallback; discarded clauses
yield none. -/
def classify (last : Option String) (toks : List String) : Option ClauseRes :=
  let ib := intentOf toks
  let body := if ib.2 then toks.tail else toks
  let qe : Nat × Bool × List String :=
    match findNum body with
    | some (v, rest) => (v, true, rest)
    | none => (1, false, [])
  let key0 := keyOf body
  let key1 :=
    if key0 = "" && body.any (fun t => indefWords.contains t) then
      last.getD ""
    else key0
  let key2 := if key1 = "" && qe.2.1 then keyOf qe.2.2 else key1
  if key2 = "" then none else some ⟨ib.1, key2, qe.1, qe.2.1⟩

/-! ## Aggregator -/

/-- Modelled from the spec: running order state — association list from
product key to quantity, preserving first-insertion order. -/
def OrderState := List (String × Nat)

/-- Modelled from the spec: quantity of a key, zero when absent. -/
def getQ : List (String × Nat) → String → Nat
  | [], _ => 0
  | (k', v) :: rest, k => if k' == k then v else getQ rest k

/-- Modelled from the spec: set the quantity of a key, updating in place
when present and appending when absent. -/
def setQ : List (String × Nat) → String → Nat → List (String × Nat)
  | [], k, v => [(k, v)]
  | (k', v') :: rest, k, v =>
    if k' == k then (k, v) :: rest else (k', v') :: setQ rest k v

/-- Modelled from the spec: intent-specific update rule.  ADD increments,
REPLACE overwrites, REMOVE with an explicit quantity subtracts
(truncated at zero, matching max 0 of the difference) and REMOVE
without one sets the quantity to zero. -/
def applyRes (st : List (String × Nat)) (r : ClauseRes) : List (String × Nat) :=
  match r.intent with
  | Intent.add => setQ st r.key (getQ st r.key + r.qty)
  | Intent.repl => setQ st r.key r.qty
  | Intent.remove =>
    if r.explicit then setQ st r.key (getQ st r.key - r.qty)
    else setQ st r.key 0

/-- Modelled from the spec: fold one clause into the running state and
last-mentioned key; a discarded clause leaves both unchanged. -/
def step (acc : List (String × Nat) × Option String) (toks : List String) :
    List (String × Nat) × Option String :=
  match classify acc.2 toks with
  | none => acc
  | some r => (applyRes acc.1 r, some r.key)

/-- Modelled from the spec: full parse — fold the clauses left to right from
the empty state, then keep only entries with positive quantity, in
first-insertion order. -/
def parse (s : String) : List (String × Nat) :=
  (((clausesOf s).foldl step ([], none)).1).filter (fun p => 0 < p.2)

/-! ## Service functions embedded from src/main.py -/

/-- Global service state of src/main.py: the `load_error` string (None until
a model load fails) and the lazily loaded model (represented abstractly,
only presence matters). -/
structure AppState where
  load_error : Option String
  model : Option Unit
deriving DecidableEq

/-- Python truthiness of an optional string: None and the empty string are
falsy, as in the `if load_error:` test of `health`. -/
def truthy : Option String → Bool
  | none => false
  | some s => !(s == "")

/-- Response of the health endpoint: status plus the configured model name
and compute type; `detail` is the `load_error` entry added on error. -/
structure HealthResp where
  status : String
  model : String
  compute_type : String
  detail : Option String
deriving DecidableEq

/-- Embedded from src/main.py `health`: status is "error" when `load_error`
is truthy, else "initializing" when the model is not loaded, else "ok";
the response always carries the configured model name and compute type. -/
def health (st : AppState) (modelName computeType : String) : HealthResp :=
  if truthy st.load_error then
    ⟨"error", modelName, computeType, st.load_error⟩
  else if st.model = none then
    ⟨"initializing", modelName, computeType, none⟩
  else
    ⟨"ok", modelName, computeType, none⟩

/-- Zero-padding to at least two digits, as Python's 02d format. -/
def pad2 (n : Nat) : String := if n < 10 then "0" ++ toString n else toString n

/-- Zero-padding to at least three digits, as Python's 03d format. -/
def pad3 (n : Nat) : String :=
  if n < 10 then "00" ++ toString n
  else if n < 100 then "0" ++ toString n
  else toString n

/-- Embedded from src/main.py `format_timestamp`, on whole seconds: SRT
timestamp HH:MM:SS,mmm with hours, minutes, seconds and milliseconds
computed exactly as the source does. -/
def format_timestamp (seconds : Nat) : String :=
  pad2 (seconds / 3600) ++ ":" ++ pad2 (seconds % 3600 / 60) ++ ":"
    ++ pad2 (seconds % 60) ++ "," ++ pad3 (seconds % 1 * 1000)

/-- Embedded from src/main.py `format_timestamp_vtt`, on whole seconds: VTT
timestamp HH:MM:SS.mmm. -/
def format_timestamp_vtt (seconds : Nat) : String :=
  pad2 (seconds / 3600) ++ ":" ++ pad2 (seconds % 3600 / 60) ++ ":"
    ++ pad2 (seconds % 60) ++ "." ++ pad3 (seconds % 1 * 1000)

/-- Subtitle segment as built by the transcribe-video-subtitles endpoint:
identifier, start and end times (whole seconds in this embedding) and
text.  The source's `end` key is called `stop` here since `end` is a
reserved word. -/
structure Segment where
  id : Nat
  start : Nat
  stop : Nat
  text : String

/-- One SRT block as appended per iteration by src/main.py `format_srt`:
id line, timestamp line, text line, blank line. -/
def srtBlock (seg : Segment) : String :=
  toString seg.id ++ "\n" ++ format_timestamp seg.start ++ " --> "
    ++ format_timestamp seg.stop ++ "\n" ++ seg.text ++ "\n\n"

/-- Embedded from src/main.py `format_srt`: start from the empty string and
append one block per segment, in order. -/
def format_srt (segments : List Segment) : String :=
  segments.foldl (fun acc seg => acc ++ srtBlock seg) ""

/-- One VTT block as appended per iteration by src/main.py `format_vtt`:
timestamp line, text line, blank line. -/
def vttBlock (seg : Segment) : String :=
  format_timestamp_vtt seg.start ++ " --> " ++ format_timestamp_vtt seg.stop
    ++ "\n" ++ seg.text ++ "\n\n"

/-- Embedded from src/main.py `format_vtt`: start from the WEBVTT header and
append one block per segment, in order. -/
def format_vtt (segments : List Segment) : String :=
  segments.foldl (fun acc seg => acc ++ vttBlock seg) "WEBVTT\n\n"

/-! ## Theorems -/

/-! ### Lemmas about the normalizer -/

theorem mem_of_lookup_eq_some {l : List (Char × Char)} {a b : Char}
    (h : l.lookup a = some b) : (a, b) ∈ l := by
  induction l with
  | nil => simp [List.lookup] at h
  | cons p t ih =>
    obtain ⟨k, v⟩ := p
    rw [List.lookup] at h
    by_cases hk : (a == k) = true
    · rw [hk] at h
      simp only [Option.some.injEq] at h
      subst h
      exact (eq_of_beq hk) ▸ List.mem_cons_self _ _
    · rw [Bool.not_eq_true] at hk
      rw [hk] at h
      exact List.mem_cons_of_mem _ (ih h)

theorem foldTable_snd_lookup_none : ∀ p ∈ foldTable, foldTable.lookup p.2 = none := by decide

theorem normChar_idem (c : Char) : normChar (normChar c) = normChar c := by
  unfold normChar
  cases h : foldTable.lookup c with
  | none => simp [h]
  | some d =>
    simp only [h, Option.getD_some]
    rw [foldTable_snd_lookup_none (c, d) (mem_of_lookup_eq_some h)]
    rfl

theorem wordsAux_append (w : List Char) :
    ∀ cur t, (∀ c ∈ w, isSpc c = false) → wordsAux cur (w ++ t) = wordsAux (cur ++ w) t := by
  induction w with
  | nil => intro cur t _; simp
  | cons c w' ih =>
    intro cur t h
    have hc : isSpc c = false := h c (List.mem_cons_self _ _)
    rw [List.cons_append, wordsAux, hc]
    simp only [Bool.false_eq_true, if_false]
    rw [ih (cur ++ [c]) t (fun a ha => h a (List.mem_cons_of_mem _ ha)),
      List.append_assoc, List.singleton_append]

theorem wordsAux_space (cur t : List Char) (h : cur ≠ []) :
    wordsAux cur (' ' :: t) = cur :: wordsAux [] t := by
  rw [wordsAux]
  simp [isSpc, h]

theorem words_intercalate :
    ∀ ws : List (List Char), (∀ w ∈ ws, w ≠ [] ∧ ∀ c ∈ w, isSpc c = false) →
      words (List.intercalate [' '] ws) = ws := by
  intro ws
  induction ws with
  | nil => intro _; rfl
  | cons w tl ih =>
    intro h
    obtain ⟨hw, hwsp⟩ := h w (List.mem_cons_self _ _)
    cases tl with
    | nil =>
      rw [List.intercalate, List.intersperse_singleton]
      show wordsAux [] (List.flatten [w]) = [w]
      rw [show List.flatten [w] = w ++ ([] : List Char) by simp]
      rw [wordsAux_append w [] [] hwsp]
      simp [wordsAux, hw]
    | cons w₂ tl₂ =>
      have htl : ∀ v ∈ w₂ :: tl₂, v ≠ [] ∧ ∀ c ∈ v, isSpc c = false :=
        fun v hv => h v (List.mem_cons_of_mem _ hv)
      rw [List.intercalate, List.intersperse_cons_cons]
      show wordsAux [] (List.flatten (w :: [' '] :: List.intersperse [' '] (w₂ :: tl₂)))
        = w :: w₂ :: tl₂
      rw [List.flatten_cons, List.flatten_cons]
      rw [wordsAux_append w [] _ hwsp, List.nil_append, List.singleton_append]
      rw [wordsAux_space _ _ hw]
      rw [show wordsAux [] (List.flatten (List.intersperse [' '] (w₂ :: tl₂)))
        = words (List.intercalate [' '] (w₂ :: tl₂)) from rfl]
      rw [ih htl]

theorem wordsAux_good :
    ∀ l cur, (cur ≠ [] → ∀ c ∈ cur, isSpc c = false) →
      ∀ w ∈ wordsAux cur l, w ≠ [] ∧ ∀ c ∈ w, isSpc c = false := by
  intro l
  induction l with
  | nil =>
    intro cur hcur w hw
    rw [wordsAux] at hw
    by_cases h : cur = []
    · simp [h] at hw
    · simp only [h, if_false] at hw
      rw [List.mem_singleton] at hw
      subst hw
      exact ⟨h, hcur h⟩
  | cons c rest ih =>
    intro cur hcur w hw
    rw [wordsAux] at hw
    by_cases hc : isSpc c = true
    · rw [if_pos hc] at hw
      by_cases h : cur = []
      · simp only [h, if_true] at hw
        exact ih [] (by intro h'; exact absurd rfl h') w hw
      · simp only [h, if_false] at hw
        rcases List.mem_cons.mp hw with h1 | h2
        · subst h1; exact ⟨h, hcur h⟩
        · exact ih [] (by intro h'; exact absurd rfl h') w h2
    · rw [Bool.not_eq_true] at hc
      rw [hc] at hw
      simp only [Bool.false_eq_true, if_false] at hw
      refine ih (cur ++ [c]) ?_ w hw
      intro _ a ha
      rcases List.mem_append.mp ha with h1 | h2
      · exact hcur (by intro h'; subst h'; simp at h1) a h1
      · rw [List.mem_singleton] at h2; subst h2; exact hc

theorem wordsAux_chars :
    ∀ l cur, ∀ w ∈ wordsAux cur l, ∀ c ∈ w, c ∈ cur ∨ c ∈ l := by
  intro l
  induction l with
  | nil =>
    intro cur w hw c hc
    rw [wordsAux] at hw
    by_cases h : cur = []
    · simp [h] at hw
    · simp only [h, if_false, List.mem_singleton] at hw
      subst hw
      exact Or.inl hc
  | cons d rest ih =>
    intro cur w hw c hc
    rw [wordsAux] at hw
    by_cases hd : isSpc d = true
    · rw [if_pos hd] at hw
      by_cases h : cur = []
      · simp only [h, if_true] at hw
        rcases ih [] w hw c hc with h1 | h1
        · simp at h1
        · exact Or.inr (List.mem_cons_of_mem _ h1)
      · simp only [h, if_false] at hw
        rcases List.mem_cons.mp hw with h1 | h1
        · subst h1; exact Or.inl hc
        · rcases ih [] w h1 c hc with h2 | h2
          · simp at h2
          · exact Or.inr (List.mem_cons_of_mem _ h2)
    · rw [Bool.not_eq_true] at hd
      rw [hd] at hw
      simp only [Bool.false_eq_true, if_false] at hw
      rcases ih (cur ++ [d]) w hw c hc with h1 | h1
      · rcases List.mem_append.mp h1 with h2 | h2
        · exact Or.inl h2
        · rw [List.mem_singleton] at h2; subst h2
          exact Or.inr (List.mem_cons_self _ _)
      · exact Or.inr (List.mem_cons_of_mem _ h1)

theorem mem_intercalate_space :
    ∀ (ws : List (List Char)) (c : Char), c ∈ List.intercalate [' '] ws →
      c = ' ' ∨ ∃ w ∈ ws, c ∈ w := by
  intro ws
  induction ws with
  | nil => intro c hc; simp [List.intercalate] at hc
  | cons w tl ih =>
    intro c hc
    cases tl with
    | nil =>
      rw [List.intercalate, List.intersperse_singleton] at hc
      simp only [List.flatten, List.append_nil] at hc
      exact Or.inr ⟨w, List.mem_cons_self _ _, hc⟩
    | cons w₂ tl₂ =>
      rw [List.intercalate, List.intersperse_cons_cons, List.flatten_cons,
        List.flatten_cons] at hc
      rcases List.mem_append.mp hc with h1 | h1
      · exact Or.inr ⟨w, List.mem_cons_self _ _, h1⟩
      · rw [List.singleton_append] at h1
        rcases List.mem_cons.mp h1 with h2 | h2
        · exact Or.inl h2
        · rcases ih c (by rw [List.intercalate]; exact h2) with h3 | ⟨v, hv, hcv⟩
          · exact Or.inl h3
          · exact Or.inr ⟨v, List.mem_cons_of_mem _ hv, hcv⟩

theorem map_normChar_fixed :
    ∀ l : List Char, (∀ c ∈ l, normChar c = c) → l.map normChar = l := by
  intro l
  induction l with
  | nil => intro _; rfl
  | cons c rest ih =>
    intro h
    rw [List.map_cons, h c (List.mem_cons_self _ _),
      ih (fun a ha => h a (List.mem_cons_of_mem _ ha))]

/-- C6: text normalization is idempotent — for every string s,
normalize (normalize s) = normalize s; the normalizer (trim, lowercase,
diacritic folding, whitespace collapsing) returns already-normalized
text unchanged. -/
theorem normalize_idempotent (s : String) : normalize (normalize s) = normalize s := by
  conv_lhs => rw [normalize, normalize]
  conv_rhs => rw [normalize]
  have hgood : ∀ w ∈ words (s.data.map normChar), w ≠ [] ∧ ∀ c ∈ w, isSpc c = false :=
    wordsAux_good _ [] (by intro h; exact absurd rfl h)
  have hdata : (String.mk (List.intercalate [' '] (words (s.data.map normChar)))).data
      = List.intercalate [' '] (words (s.data.map normChar)) := rfl
  rw [hdata]
  have hfix : (List.intercalate [' '] (words (s.data.map normChar))).map normChar
      = List.intercalate [' '] (words (s.data.map normChar)) := by
    apply map_normChar_fixed
    intro c hc
    rcases mem_intercalate_space _ c hc with h | ⟨w, hw, hcw⟩
    · subst h; decide
    · rcases wordsAux_chars _ [] w hw c hcw with h0 | h1
      · simp at h0
      · obtain ⟨a, _, rfl⟩ := List.mem_map.mp h1
        exact normChar_idem a
  rw [hfix, words_intercalate _ hgood]

example : parse "" = [] := by decide
example : parse "dos conchas y tres teleras" = [("concha", 2), ("telera", 3)] := by decide
example : parse "quiero una dona, mejor dos donas" = [("dona", 2)] := by decide
example : parse "dos panes, quitar un pan" = [("pan", 1)] := by decide
example : parse "cancela los panes" = [] := by decide
example : parse "una concha y otra" = [("concha", 2)] := by decide

/-! ### Helper lemmas for the aggregator -/

theorem getQ_setQ (st : List (String × Nat)) (k : String) (v : Nat) :
    getQ (setQ st k v) k = v := by
  induction st with
  | nil => simp [setQ, getQ]
  | cons p rest ih =>
    obtain ⟨k', v'⟩ := p
    by_cases h : (k' == k) = true
    · simp [setQ, h, getQ]
    · rw [Bool.not_eq_true] at h
      simp [setQ, h, getQ, ih]

theorem setQ_keys (st : List (String × Nat)) (k : String) (v : Nat) :
    (setQ st k v).map Prod.fst =
      if k ∈ st.map Prod.fst then st.map Prod.fst else st.map Prod.fst ++ [k] := by
  induction st with
  | nil => simp [setQ]
  | cons p rest ih =>
    obtain ⟨k', v'⟩ := p
    by_cases h : (k' == k) = true
    · have hk : k' = k := eq_of_beq h
      subst hk
      simp [setQ, h]
    · rw [Bool.not_eq_true] at h
      have hne : k ≠ k' := by
        intro he
        subst he
        simp at h
      simp only [setQ, h, Bool.false_eq_true, if_false, List.map_cons]
      rw [ih]
      by_cases hm : k ∈ rest.map Prod.fst
      · simp [hm, List.mem_cons, hne]
      · simp [hm, List.mem_cons, hne]

theorem foldl_step_none (l : List (List String)) :
    ∀ acc : List (String × Nat) × Option String, acc.2 = none →
      (∀ toks ∈ l, classify none toks = none) → l.foldl step acc = acc := by
  induction l with
  | nil => intro acc _ _; rfl
  | cons t rest ih =>
    intro acc hacc h
    rw [List.foldl_cons]
    rw [show step acc t = acc by
      rw [step, hacc, h t (List.mem_cons_self _ _)]]
    exact ih acc hacc (fun toks ht => h toks (List.mem_cons_of_mem _ ht))

/-! ### Helper lemmas for the subtitle formatters -/

theorem strFoldl_append (l : List String) :
    ∀ init : String, l.foldl (· ++ ·) init = init ++ String.join l := by
  induction l with
  | nil =>
    intro init
    show init = init ++ String.join []
    rw [show String.join [] = "" from rfl, String.append_empty]
  | cons a t ih =>
    intro init
    rw [List.foldl_cons, ih (init ++ a),
      show String.join (a :: t) = List.foldl (· ++ ·) ("" ++ a) t from rfl,
      ih ("" ++ a), String.empty_append, String.append_assoc]

theorem foldl_append_join (f : Segment → String) (l : List Segment) (init : String) :
    l.foldl (fun acc seg => acc ++ f seg) init = init ++ String.join (l.map f) := by
  rw [← List.foldl_map, strFoldl_append]

/-! ### Status strings are pairwise distinct -/

theorem stringNe1 : ("error" : String) ≠ "initializing" := by decide

theorem stringNe2 : ("error" : String) ≠ "ok" := by decide

theorem stringNe3 : ("initializing" : String) ≠ "error" := by decide

theorem stringNe4 : ("initializing" : String) ≠ "ok" := by decide

theorem stringNe5 : ("ok" : String) ≠ "error" := by decide

theorem stringNe6 : ("ok" : String) ≠ "initializing" := by decide

/-! ### Claim theorems -/

/-- C1: for every input string, every quantity in the parser's output
sequence is a strictly positive integer — entries whose quantity reaches
zero are filtered out before output. -/
theorem parse_quantities_positive (s : String) (p : String × Nat)
    (hp : p ∈ parse s) : 0 < p.2 := by
  rw [parse] at hp
  exact of_decide_eq_true (List.mem_filter.mp hp).2

theorem parse_quantities_positive_witness :
    ("concha", 2) ∈ parse "dos conchas" ∧ 0 < (("concha", 2) : String × Nat).2 :=
  ⟨by decide, parse_quantities_positive "dos conchas" ("concha", 2) (by decide)⟩

/-- C2: parsing is a total function over all input strings — every string,
including empty or malformed input, yields a result; a clause whose
classification fails is silently discarded, leaving the order state and
the last-mentioned product unchanged. -/
theorem parse_total_and_discard :
    (∀ s : String, ∃ r : List (String × Nat), parse s = r) ∧
    (∀ (acc : List (String × Nat) × Option String) (toks : List String),
      classify acc.2 toks = none → step acc toks = acc) :=
  ⟨fun s => ⟨parse s, rfl⟩, fun acc toks h => by rw [step, h]⟩

theorem parse_total_and_discard_witness :
    step ([], none) ["de"] = ([], none) :=
  parse_total_and_discard.2 ([], none) ["de"] (by decide)

/-- C3: a clause classified with REPLACE intent and result (key, qty) sets
the state entry of that key to qty, overwriting any prior value; in
particular "quiero una dona, mejor dos donas" parses to the single
output line (dona, 2). -/
theorem replace_overwrites :
    (∀ (st : List (String × Nat)) (k : String) (q : Nat) (e : Bool),
      getQ (applyRes st ⟨Intent.repl, k, q, e⟩) k = q) ∧
    parse "quiero una dona, mejor dos donas" = [("dona", 2)] :=
  ⟨fun st k q e => by rw [show applyRes st ⟨Intent.repl, k, q, e⟩ = setQ st k q from rfl,
      getQ_setQ], by decide⟩

/-- C4: a clause classified with REMOVE intent and an explicit quantity sets
the state entry to max 0 (previous minus qty); without an explicit
quantity it sets the entry to zero (full removal); in particular
"cancela los panes" parses to the empty output sequence. -/
theorem remove_semantics :
    (∀ (st : List (String × Nat)) (k : String) (q : Nat),
      (getQ (applyRes st ⟨Intent.remove, k, q, true⟩) k : Int) =
        max 0 ((getQ st k : Int) - (q : Int))) ∧
    (∀ (st : List (String × Nat)) (k : String) (q : Nat),
      getQ (applyRes st ⟨Intent.remove, k, q, false⟩) k = 0) ∧
    parse "cancela los panes" = [] := by
  refine ⟨fun st k q => ?_, fun st k q => ?_, by decide⟩
  · rw [show applyRes st ⟨Intent.remove, k, q, true⟩ = setQ st k (getQ st k - q) from rfl,
      getQ_setQ]
    omega
  · rw [show applyRes st ⟨Intent.remove, k, q, false⟩ = setQ st k 0 from rfl, getQ_setQ]

/-- C5: parsing the empty string returns the empty output sequence, and more
generally any input from which no valid clause is extracted — every
clause is discarded by classification, which in a run that never
updates the state means classification with no last-mentioned
product — returns the empty output sequence. -/
theorem parse_empty_input :
    parse "" = [] ∧
    ∀ s : String, (∀ toks ∈ clausesOf s, classify none toks = none) →
      parse s = [] := by
  refine ⟨by decide, fun s h => ?_⟩
  rw [parse, foldl_step_none (clausesOf s) ([], none) rfl h]
  rfl

theorem parse_empty_input_witness : parse "otra" = [] :=
  parse_empty_input.2 "otra" (by decide)

/-- C7: the parser is deterministic — the same input string always produces
the identical output sequence; the output is the filtered fold state,
and a state update never reorders existing keys, it updates a present
key in place and appends an absent key at the end, so surviving keys
are listed in first-insertion order. -/
theorem parse_deterministic :
    (∀ s₁ s₂ : String, s₁ = s₂ → parse s₁ = parse s₂) ∧
    (∀ s : String, parse s =
      (((clausesOf s).foldl step ([], none)).1).filter (fun p => 0 < p.2)) ∧
    (∀ (st : List (String × Nat)) (k : String) (v : Nat),
      (setQ st k v).map Prod.fst =
        if k ∈ st.map Prod.fst then st.map Prod.fst else st.map Prod.fst ++ [k]) :=
  ⟨fun _ _ h => h ▸ rfl, fun _ => rfl, setQ_keys⟩

theorem parse_deterministic_witness :
    parse "dos conchas" = parse "dos conchas" :=
  parse_deterministic.1 "dos conchas" "dos conchas" rfl

/-- C8 (amended): the health endpoint's status is "error" exactly when
load error is a non-empty string (Python truthiness of the load error),
"initializing" exactly when the load error is falsy and the model is
not loaded, and "ok" otherwise; the response always carries the
configured model name and compute type. -/
theorem health_status_spec (st : AppState) (mn ct : String) :
    ((health st mn ct).status = "error" ↔ truthy st.load_error = true) ∧
    ((health st mn ct).status = "initializing" ↔
      (truthy st.load_error = false ∧ st.model = none)) ∧
    ((health st mn ct).status = "ok" ↔
      (truthy st.load_error = false ∧ st.model ≠ none)) ∧
    (health st mn ct).model = mn ∧ (health st mn ct).compute_type = ct := by
  obtain ⟨le, mo⟩ := st
  cases h1 : truthy le with
  | true =>
    have hs : health ⟨le, mo⟩ mn ct = ⟨"error", mn, ct, le⟩ := by
      rw [health, if_pos h1]
    rw [hs]
    exact ⟨⟨fun _ => rfl, fun _ => rfl⟩,
      ⟨fun h => (stringNe1 h).elim, fun h => absurd h.1 (by decide)⟩,
      ⟨fun h => (stringNe2 h).elim, fun h => absurd h.1 (by decide)⟩,
      rfl, rfl⟩
  | false =>
    cases mo with
    | none =>
      have hs : health ⟨le, none⟩ mn ct = ⟨"initializing", mn, ct, none⟩ := by
        rw [health, if_neg (by rw [h1]; decide),
          if_pos (show (AppState.mk le none).model = none from rfl)]
      rw [hs]
      exact ⟨⟨fun h => (stringNe3 h).elim, fun h => absurd h (by decide)⟩,
        ⟨fun _ => ⟨rfl, rfl⟩, fun _ => rfl⟩,
        ⟨fun h => (stringNe4 h).elim, fun h => absurd rfl h.2⟩,
        rfl, rfl⟩
    | some u =>
      have hs : health ⟨le, some u⟩ mn ct = ⟨"ok", mn, ct, none⟩ := by
        rw [health, if_neg (by rw [h1]; decide),
          if_neg (fun h => Option.noConfusion h)]
      rw [hs]
      exact ⟨⟨fun h => (stringNe5 h).elim, fun h => absurd h (by decide)⟩,
        ⟨fun h => (stringNe6 h).elim, fun h => Option.noConfusion h.2⟩,
        ⟨fun _ => ⟨rfl, fun h => Option.noConfusion h⟩, fun _ => rfl⟩,
        rfl, rfl⟩

theorem health_status_spec_witness :
    (health ⟨none, none⟩ "tiny" "int8").status = "initializing" :=
  (health_status_spec ⟨none, none⟩ "tiny" "int8").2.1.mpr ⟨rfl, rfl⟩

theorem health_claim_counterexample :
    (health ⟨some "", none⟩ "tiny" "int8").status = "initializing" ∧
    (⟨some "", none⟩ : AppState).load_error ≠ none :=
  ⟨rfl, by decide⟩

/-- C9: format_srt produces exactly one block per segment in input order
(id line, timestamp line, text line, blank line), and format_vtt begins
with the WEBVTT header followed by exactly one timestamp-and-text block
per segment in input order. -/
theorem format_srt_vtt_blocks (segments : List Segment) :
    format_srt segments = String.join (segments.map srtBlock) ∧
    format_vtt segments = "WEBVTT\n\n" ++ String.join (segments.map vttBlock) := by
  constructor
  · rw [format_srt, foldl_append_join, String.empty_append]
  · rw [format_vtt, foldl_append_join]

/-- C10: on a whole number of seconds s, format_timestamp returns
HH:MM:SS,000 with HH = s / 3600, MM = s % 3600 / 60 and SS = s % 60,
each zero-padded to at least two digits, and the minute and second
fields are strictly below sixty. -/
theorem format_timestamp_spec (s : Nat) :
    format_timestamp s =
      pad2 (s / 3600) ++ ":" ++ pad2 (s % 3600 / 60) ++ ":" ++ pad2 (s % 60)
        ++ ",000" ∧
    s % 3600 / 60 < 60 ∧ s % 60 < 60 := by
  refine ⟨?_, by omega, by omega⟩
  rw [format_timestamp, Nat.mod_one,
    show pad3 (0 * 1000) = "000" from rfl, String.append_assoc,
    show ("," ++ "000" : String) = ",000" from rfl]

end Transcriptor
